import Mathlib

/-!
# Verification of the `notify-done` daemon core

Shallow embedding of the `notify-done` event pipeline (kernel probe record
writing, record decoding, process tracker, effective-config resolver,
notifier formatting) together with proofs of the specified properties.

All definitions are translated from the Rust sources:
* `notify-done-daemon/src/config.rs`
* `notify-done-daemon/src/process_tracker.rs`
* `notify-done-daemon/src/event_processor.rs`
* `notify-done-daemon/src/notifier.rs`
* `notify-done-ebpf/src/main.rs`
* `notify-done-common/src/lib.rs`
-/

namespace NotifyDone

/-! ## Configuration (config.rs) -/

/-- System-wide daemon configuration (`DaemonConfig` in config.rs).
`min_uid`, `threshold_seconds` are `u32`/`u64` in Rust; modelled as `Nat`
since only comparisons are performed on them. -/
structure DaemonConfig where
  min_uid : Nat
  threshold_seconds : Nat
  ignore_patterns : List String
  debug : Bool
deriving Repr, DecidableEq

/-- `default_ignore_patterns()` from config.rs. -/
def default_ignore_patterns : List String :=
  ["vim", "nvim", "nano", "less", "more", "man",
   "bash", "zsh", "fish", "sh",
   "ssh", "tmux", "screen", "htop", "top",
   "ls", "cat", "grep", "find", "pwd", "cd", "echo", "printf", "test", "["]

/-- `DaemonConfig::default()`. -/
def DaemonConfig.default : DaemonConfig :=
  { min_uid := 1000
    threshold_seconds := 10
    ignore_patterns := default_ignore_patterns
    debug := false }

/-- Per-user configuration (`UserConfig` in config.rs). -/
structure UserConfig where
  threshold_seconds : Option Nat
  ignore_patterns : List String
  always_notify : List String
  disabled : Bool
deriving Repr, DecidableEq

/-- Split a character sequence at every occurrence of `sep`, keeping empty
segments (the behaviour of Rust's `str::split(char)`): `"npm*"` splits into
`["npm", ""]`, `"a*b*c"` into `["a", "b", "c"]`. -/
def splitOnChar (sep : Char) : List Char → List (List Char)
  | [] => [[]]
  | c :: rest =>
    if c = sep then
      [] :: splitOnChar sep rest
    else
      match splitOnChar sep rest with
      | [] => [[c]]
      | g :: gs => (c :: g) :: gs

/-- The glob test performed per pattern inside `DaemonConfig::should_ignore`
(config.rs lines 117-129): if the pattern contains `*`, split on `*`; with
exactly two parts the command must start with the first and end with the
second; otherwise fall back to exact equality.  Rust's `str` operations
(`contains`, `split`, `starts_with`, `ends_with`) act on the character
sequence, modelled here on `String.data`. -/
def globMatches (p comm : String) : Bool :=
  if p.data.contains '*' then
    let parts := splitOnChar '*' p.data
    if parts.length = 2 then
      (parts.getD 0 []).isPrefixOf comm.data &&
        (parts.getD 1 []).isSuffixOf comm.data
    else
      comm == p
  else
    comm == p

/-- `DaemonConfig::should_ignore` (config.rs lines 116-130). -/
def DaemonConfig.should_ignore (c : DaemonConfig) (comm : String) : Bool :=
  c.ignore_patterns.any (fun p => globMatches p comm)

/-- Combined configuration for a specific user (`EffectiveConfig` in
config.rs).  The Rust `HashSet<String>` fields are modelled as lists; the
only operation the code performs on them is `contains` (exact string
equality), which is insensitive to duplicates and order. -/
structure EffectiveConfig where
  threshold_seconds : Nat
  ignore_set : List String
  always_notify : List String
  disabled : Bool
deriving Repr, DecidableEq

/-- `EffectiveConfig::new` (config.rs lines 173-194): threshold is the user
override if present else the daemon default; ignore set is daemon patterns
extended with the user patterns; always-notify and disabled come from the
user config (empty/false when absent). -/
def EffectiveConfig.new (daemon : DaemonConfig) (user : Option UserConfig) :
    EffectiveConfig :=
  { threshold_seconds :=
      (user.bind (fun u => u.threshold_seconds)).getD daemon.threshold_seconds
    ignore_set :=
      daemon.ignore_patterns ++ (user.map (fun u => u.ignore_patterns)).getD []
    always_notify := (user.map (fun u => u.always_notify)).getD []
    disabled := (user.map (fun u => u.disabled)).getD false }

/-- `EffectiveConfig::should_notify` (config.rs lines 196-212).  Note the
membership tests are `HashSet::contains`, i.e. exact string equality —
`should_ignore`'s glob matching is NOT consulted here. -/
def EffectiveConfig.should_notify (c : EffectiveConfig) (comm : String)
    (duration_secs : Nat) : Bool :=
  if c.disabled then
    false
  else if c.always_notify.contains comm then
    decide (duration_secs ≥ c.threshold_seconds)
  else if c.ignore_set.contains comm then
    false
  else
    decide (duration_secs ≥ c.threshold_seconds)

/-! ## Events (notify-done-common/src/lib.rs, userspace view)

The tracker consumes decoded events; command name and filename are the
NUL-terminated strings produced by `comm_str`/`filename_str`.  Timestamps
are `u64` nanoseconds, exit codes `i32`. -/

/-- Userspace view of a `ProcessExecEvent`. -/
structure ProcessExecEvent where
  pid : Nat
  tgid : Nat
  ppid : Nat
  uid : Nat
  timestamp_ns : Nat
  comm : String
  filename : String
deriving Repr, DecidableEq

/-- Userspace view of a `ProcessExitEvent`. -/
structure ProcessExitEvent where
  pid : Nat
  tgid : Nat
  uid : Nat
  exit_code : Int
  timestamp_ns : Nat
  comm : String
deriving Repr, DecidableEq

/-! ## Process tracker (process_tracker.rs)

Wall-clock time (`Instant`) is modelled as a `Nat` count of nanoseconds
passed explicitly to each operation (`now`); `Instant::elapsed`/
`duration_since` saturate at zero, matching truncated `Nat` subtraction.
The `HashMap<u32, TrackedProcess>` is modelled as an association list with
`insert` replacing the binding of an existing key, which is the observable
behaviour of `HashMap::insert`. -/

/-- `TrackedProcess` (process_tracker.rs lines 8-17). -/
structure TrackedProcess where
  pid : Nat
  tgid : Nat
  ppid : Nat
  uid : Nat
  comm : String
  filename : String
  start_time : Nat
  start_timestamp_ns : Nat
deriving Repr, DecidableEq

/-- `CompletedProcess` (process_tracker.rs lines 21-29); duration is in
nanoseconds (`Duration` has nanosecond precision here: both sources,
`Duration::from_nanos` and `Instant` differences, are nanosecond counts). -/
structure CompletedProcess where
  pid : Nat
  tgid : Nat
  uid : Nat
  comm : String
  filename : String
  exit_code : Int
  duration : Nat
deriving Repr, DecidableEq

/-- Association-list model of `HashMap::insert` (replace any existing
binding of the key, add the new one). -/
def hmInsert (m : List (Nat × TrackedProcess)) (k : Nat) (v : TrackedProcess) :
    List (Nat × TrackedProcess) :=
  m.filter (fun kv => kv.1 ≠ k) ++ [(k, v)]

/-- Association-list model of `HashMap::get` lookup: the value bound to the
first (and, under the key-uniqueness invariant, only) occurrence of the key. -/
def hmGet (m : List (Nat × TrackedProcess)) (k : Nat) : Option TrackedProcess :=
  match m with
  | [] => none
  | kv :: rest => if kv.1 = k then some kv.2 else hmGet rest k

/-- Association-list model of dropping a key (the removal part of
`HashMap::remove`). -/
def hmErase (m : List (Nat × TrackedProcess)) (k : Nat) :
    List (Nat × TrackedProcess) :=
  m.filter (fun kv => kv.1 ≠ k)

/-- `ProcessTracker` (process_tracker.rs lines 32-39). -/
structure ProcessTracker where
  processes : List (Nat × TrackedProcess)
  history : List CompletedProcess
  max_history : Nat
deriving Repr, DecidableEq

/-- `ProcessTracker::new` (process_tracker.rs lines 42-48). -/
def ProcessTracker.new (max_history : Nat) : ProcessTracker :=
  { processes := [], history := [], max_history := max_history }

/-- The `TrackedProcess` built by `on_exec` at wall-clock instant `now`. -/
def trackedOfExec (now : Nat) (e : ProcessExecEvent) : TrackedProcess :=
  { pid := e.pid
    tgid := e.tgid
    ppid := e.ppid
    uid := e.uid
    comm := e.comm
    filename := e.filename
    start_time := now
    start_timestamp_ns := e.timestamp_ns }

/-- `ProcessTracker::on_exec` (process_tracker.rs lines 51-71): build a
`TrackedProcess` from the event and the current instant and insert it by
tgid, replacing any prior entry. -/
def ProcessTracker.on_exec (t : ProcessTracker) (now : Nat)
    (e : ProcessExecEvent) : ProcessTracker :=
  { t with processes := hmInsert t.processes e.tgid (trackedOfExec now e) }

/-- The history update inside `on_exit` (process_tracker.rs lines 104-107):
push the completion, then if the length exceeds the cap remove the oldest
(index 0). -/
def histPush (cap : Nat) (h : List CompletedProcess) (c : CompletedProcess) :
    List CompletedProcess :=
  let h1 := h ++ [c]
  if h1.length > cap then h1.tail else h1

/-- `ProcessTracker::on_exit` (process_tracker.rs lines 74-110): remove the
tgid's entry (returning `none` when absent); duration is the kernel
timestamp difference when `exit.timestamp_ns > start_timestamp_ns`, else
the wall-clock elapsed since the exec instant; the completion is appended
to the (capped) history and returned. -/
def ProcessTracker.on_exit (t : ProcessTracker) (now : Nat)
    (e : ProcessExitEvent) : ProcessTracker × Option CompletedProcess :=
  match hmGet t.processes e.tgid with
  | none => (t, none)
  | some tracked =>
    let duration :=
      if e.timestamp_ns > tracked.start_timestamp_ns then
        e.timestamp_ns - tracked.start_timestamp_ns
      else
        now - tracked.start_time
    let completed : CompletedProcess :=
      { pid := tracked.pid
        tgid := tracked.tgid
        uid := tracked.uid
        comm := tracked.comm
        filename := tracked.filename
        exit_code := e.exit_code
        duration := duration }
    ({ t with
        processes := hmErase t.processes e.tgid
        history := histPush t.max_history t.history completed },
     some completed)

/-- `ProcessTracker::cleanup_stale` (process_tracker.rs lines 128-144):
retain exactly the entries whose wall-clock age does not exceed `max_age`. -/
def ProcessTracker.cleanup_stale (t : ProcessTracker) (now : Nat)
    (max_age : Nat) : ProcessTracker :=
  { t with
      processes := t.processes.filter (fun kv => ¬ now - kv.2.start_time > max_age) }

/-- A tracker operation, as dispatched by the event processor: an exec
event, an exit event, or the periodic stale sweep; each carries the
wall-clock instant at which it is handled. -/
inductive TrackerOp where
  | execEv (now : Nat) (e : ProcessExecEvent)
  | exitEv (now : Nat) (e : ProcessExitEvent)
  | sweep (now : Nat) (max_age : Nat)
deriving Repr

/-- Apply one operation to the tracker (dropping `on_exit`'s return value). -/
def TrackerOp.apply (t : ProcessTracker) : TrackerOp → ProcessTracker
  | .execEv now e => t.on_exec now e
  | .exitEv now e => (t.on_exit now e).1
  | .sweep now d => t.cleanup_stale now d

/-- Apply a sequence of operations left to right. -/
def runOps (t : ProcessTracker) (ops : List TrackerOp) : ProcessTracker :=
  ops.foldl TrackerOp.apply t

/-- The operation is an event (exec or exit) whose tgid differs from `g`;
the periodic sweep is not an event. -/
def TrackerOp.isEventNotFor (g : Nat) : TrackerOp → Prop
  | .execEv _ e => e.tgid ≠ g
  | .exitEv _ e => e.tgid ≠ g
  | .sweep _ _ => False

/-- The active table has pairwise-distinct tgid keys (the defining
invariant of a `HashMap` keyed by tgid). -/
def keysNodup (t : ProcessTracker) : Prop :=
  (t.processes.map Prod.fst).Nodup

/-- A matched exec/exit pair for one process: the exec handled at
wall-clock `execNow`, the exit at `exitNow`. -/
structure ExecExitPair where
  execNow : Nat
  execEv : ProcessExecEvent
  exitNow : Nat
  exitEv : ProcessExitEvent
deriving Repr, DecidableEq

/-- The completion produced by handling a matched exec/exit pair
back-to-back: identity from the exec event, exit code from the exit event,
duration from the kernel timestamps when they increased, else from the
wall-clock instants. -/
def completionOfPair (p : ExecExitPair) : CompletedProcess :=
  { pid := p.execEv.pid
    tgid := p.execEv.tgid
    uid := p.execEv.uid
    comm := p.execEv.comm
    filename := p.execEv.filename
    exit_code := p.exitEv.exit_code
    duration :=
      if p.exitEv.timestamp_ns > p.execEv.timestamp_ns then
        p.exitEv.timestamp_ns - p.execEv.timestamp_ns
      else
        p.exitNow - p.execNow }

/-- Handle one exec/exit pair (exec, then the matching exit). -/
def runPair (t : ProcessTracker) (p : ExecExitPair) : ProcessTracker :=
  ((t.on_exec p.execNow p.execEv).on_exit p.exitNow p.exitEv).1

/-- Handle a sequence of exec/exit pairs left to right. -/
def runPairs (t : ProcessTracker) (ps : List ExecExitPair) : ProcessTracker :=
  ps.foldl runPair t

/-! ## Byte-level records (notify-done-ebpf/src/main.rs, event_processor.rs)

A ring-buffer slot is a list of bytes (`Nat`s < 256).  The probes write
fields at fixed byte offsets with little-endian stores (x86-64 host);
`List.set` models a single byte store (out-of-range stores cannot occur:
the reserved slot has the record's size). -/

/-- Store the `w` little-endian bytes of `v` at offset `off` (models the
typed stores `*(base.add(off) as *mut uN) = v`). -/
def writeLE : List Nat → Nat → Nat → Nat → List Nat
  | buf, _, 0, _ => buf
  | buf, off, w + 1, v => writeLE (buf.set off (v % 256)) (off + 1) w (v / 256)

/-- Copy a byte string to offset `off` (models the unrolled per-byte copy of
the command name). -/
def writeBytes : List Nat → Nat → List Nat → List Nat
  | buf, _, [] => buf
  | buf, off, b :: bs => writeBytes (buf.set off b) (off + 1) bs

/-- Read `w` little-endian bytes at offset `off` as an unsigned value. -/
def readLE : List Nat → Nat → Nat → Nat
  | _, _, 0 => 0
  | buf, off, w + 1 => buf.getD off 0 + 256 * readLE buf (off + 1) w

/-- Two's-complement interpretation of a 32-bit unsigned value (how Rust
reads the `i32` field). -/
def toSigned32 (n : Nat) : Int :=
  if n < 2 ^ 31 then (n : Int) else (n : Int) - 2 ^ 32

/-- The little-endian byte string of `v`, `w` bytes long. -/
def toLE : Nat → Nat → List Nat
  | 0, _ => []
  | w + 1, v => v % 256 :: toLE w (v / 256)

/-- `MIN_UID` from notify-done-ebpf/src/main.rs line 20. -/
def MIN_UID : Nat := 1000

/-- The task-state values available to the exit tracepoint: current uid,
pid/tgid, the monotonic clock, the 16-byte `comm`, and the task's actual
exit code (which the kernel knows but the probe never reads). -/
structure ExitProbeContext where
  uid : Nat
  pid : Nat
  tgid : Nat
  timestamp : Nat
  exit_code : Int
  comm : Option (List Nat)
deriving Repr

/-- The scalar store sequence of `try_sched_process_exit` (main.rs lines
172-184) on the reserved 48-byte slot `buf`, in source order: tag 2 at 0;
zero pad at 1-3; pid, tgid, uid as u32 at 4, 8, 12; the constant `0` at 16
(the `// exit_code` store); timestamp as u64 at 24; comm zeroed as two u64
stores at 32 and 40. -/
def exitScalarWrites (buf : List Nat) (c : ExitProbeContext) : List Nat :=
  writeLE (writeLE (writeLE (writeLE (writeLE (writeLE (writeLE (writeLE
    (writeLE buf 0 1 2) 1 3 0) 4 4 c.pid) 8 4 c.tgid) 12 4 c.uid) 16 4 0)
    24 8 c.timestamp) 32 8 0) 40 8 0

/-- The full store sequence of `try_sched_process_exit` (main.rs lines
158-208): the scalar stores, then the task's comm bytes copied to offset 32
when `ctx.command()` succeeds. -/
def exitRecordWrites (buf : List Nat) (c : ExitProbeContext) : List Nat :=
  match c.comm with
  | some comm => writeBytes (exitScalarWrites buf c) 32 comm
  | none => exitScalarWrites buf c

/-- `try_sched_process_exit` (main.rs lines 145-212): drop silently when
`uid < MIN_UID`, otherwise fill and submit the reserved slot. -/
def try_sched_process_exit (c : ExitProbeContext) (buf : List Nat) :
    Option (List Nat) :=
  if c.uid < MIN_UID then none else some (exitRecordWrites buf c)

/-! ## Record decoding (event_processor.rs `process_events`) -/

/-- The `ProcessExecEvent` struct as read from the wire
(notify-done-common/src/lib.rs lines 20-39); `comm` and `filename` are the
raw byte arrays. -/
structure ProcessExecRecord where
  event_type : Nat
  pid : Nat
  tgid : Nat
  ppid : Nat
  uid : Nat
  timestamp_ns : Nat
  comm : List Nat
  filename : List Nat
deriving Repr, DecidableEq

/-- The `ProcessExitEvent` struct as read from the wire
(notify-done-common/src/lib.rs lines 44-61). -/
structure ProcessExitRecord where
  event_type : Nat
  pid : Nat
  tgid : Nat
  uid : Nat
  exit_code : Int
  timestamp_ns : Nat
  comm : List Nat
deriving Repr, DecidableEq

/-- `comm_str`/`filename_str` (notify-done-common/src/lib.rs lines 91-111):
the bytes before the first NUL (the whole field when no NUL occurs). -/
def nulTerminated (bytes : List Nat) : List Nat :=
  bytes.takeWhile (fun b => b ≠ 0)

/-- `size_of::<ProcessExecEvent>()`: repr(C) layout — u8 tag, 3 pad, four
u32 at 4/8/12/16, 4 pad, u64 at 24, 16-byte comm at 32, 256-byte filename
at 48; total 304. -/
def execRecordSize : Nat := 304

/-- `size_of::<ProcessExitEvent>()`: u8 tag, 3 pad, three u32 at 4/8/12,
i32 at 16, 4 pad, u64 at 24, 16-byte comm at 32; total 48. -/
def exitRecordSize : Nat := 48

/-- The `ptr::read_unaligned` of a `ProcessExecEvent` from a byte buffer on
the little-endian host: each field read at its repr(C) offset. -/
def readExecRecord (data : List Nat) : ProcessExecRecord :=
  { event_type := data.getD 0 0
    pid := readLE data 4 4
    tgid := readLE data 8 4
    ppid := readLE data 12 4
    uid := readLE data 16 4
    timestamp_ns := readLE data 24 8
    comm := (data.drop 32).take 16
    filename := (data.drop 48).take 256 }

/-- The `ptr::read_unaligned` of a `ProcessExitEvent` from a byte buffer. -/
def readExitRecord (data : List Nat) : ProcessExitRecord :=
  { event_type := data.getD 0 0
    pid := readLE data 4 4
    tgid := readLE data 8 4
    uid := readLE data 12 4
    exit_code := toSigned32 (readLE data 16 4)
    timestamp_ns := readLE data 24 8
    comm := (data.drop 32).take 16 }

/-- The per-record dispatch of `EventProcessor::process_events`
(event_processor.rs lines 36-64): empty data is skipped; the first byte
(`data[0]`) selects the record type; a record shorter than its struct is
dropped; otherwise the struct is read from the bytes. -/
def decodeEvent (data : List Nat) :
    Option (ProcessExecRecord ⊕ ProcessExitRecord) :=
  if data.length = 0 then
    none
  else if data.getD 0 0 = 1 then
    if execRecordSize ≤ data.length then some (.inl (readExecRecord data))
    else none
  else if data.getD 0 0 = 2 then
    if exitRecordSize ≤ data.length then some (.inr (readExitRecord data))
    else none
  else none

/-- The unsigned 32-bit (two's-complement) value whose bytes represent an
`i32`. -/
def intToU32 (z : Int) : Nat := (z % 2 ^ 32).toNat

/-- An `ExecRecord` laid out byte-by-byte at the documented offsets: tag 1
at 0, pad at 1-3, pid at 4, tgid at 8, ppid at 12, uid at 16, pad at 20,
timestamp at 24, 16-byte comm at 32, 256-byte filename at 48 (304 bytes). -/
def encodeExecRecord (pid tgid ppid uid ts : Nat)
    (comm filename : List Nat) : List Nat :=
  [1, 0, 0, 0] ++ toLE 4 pid ++ toLE 4 tgid ++ toLE 4 ppid ++ toLE 4 uid ++
    [0, 0, 0, 0] ++ toLE 8 ts ++ comm ++ filename

/-- An `ExitRecord` laid out byte-by-byte at the documented offsets: tag 2
at 0, pad at 1-3, pid at 4, tgid at 8, uid at 12, signed exit code at 16,
pad at 20, timestamp at 24, 16-byte comm at 32 (48 bytes). -/
def encodeExitRecord (pid tgid uid : Nat) (ec : Int) (ts : Nat)
    (comm : List Nat) : List Nat :=
  [2, 0, 0, 0] ++ toLE 4 pid ++ toLE 4 tgid ++ toLE 4 uid ++
    toLE 4 (intToU32 ec) ++ [0, 0, 0, 0] ++ toLE 8 ts ++ comm

/-! ## Notifier (notifier.rs) -/

/-- `format_duration` (notifier.rs lines 99-108); the argument is the
`Duration` in nanoseconds, `as_secs` is division by 10⁹. -/
def format_duration (duration_ns : Nat) : String :=
  let secs := duration_ns / 1000000000
  if secs < 60 then
    toString secs ++ "s"
  else if secs < 3600 then
    toString (secs / 60) ++ "m " ++ toString (secs % 60) ++ "s"
  else
    toString (secs / 3600) ++ "h " ++ toString (secs % 3600 / 60) ++ "m " ++
      toString (secs % 60) ++ "s"

/-- The notification summary built by `Notifier::notify` (notifier.rs
line 18). -/
def notifySummary (p : CompletedProcess) : String :=
  "Command completed: " ++ p.comm

/-- `Notifier::format_body` (notifier.rs lines 26-38). -/
def format_body (p : CompletedProcess) : String :=
  let duration := format_duration p.duration
  let status := if p.exit_code = 0 then "succeeded" else "failed"
  status ++ "\nDuration: " ++ duration ++ "\nExit code: " ++ toString p.exit_code

/-! ## Lemmas on byte stores and reads -/

theorem length_writeLE : ∀ (w : Nat) (buf : List Nat) (off v : Nat),
    (writeLE buf off w v).length = buf.length := by
  intro w
  induction w with
  | zero => intro buf off v; rfl
  | succ w ih =>
    intro buf off v
    rw [writeLE, ih, List.length_set]

theorem length_writeBytes : ∀ (bs buf : List Nat) (off : Nat),
    (writeBytes buf off bs).length = buf.length := by
  intro bs
  induction bs with
  | nil => intro buf off; rfl
  | cons b bs ih =>
    intro buf off
    rw [writeBytes, ih, List.length_set]

theorem getD_writeLE_out : ∀ (w : Nat) (buf : List Nat) (off v j : Nat),
    j < off ∨ off + w ≤ j →
    (writeLE buf off w v).getD j 0 = buf.getD j 0 := by
  intro w
  induction w with
  | zero => intro buf off v j _; rfl
  | succ w ih =>
    intro buf off v j h
    have hne : off ≠ j := by omega
    rw [writeLE, ih _ _ _ _ (by omega)]
    simp [List.getD_eq_getElem?_getD, List.getElem?_set_ne hne]

theorem getD_writeBytes_out : ∀ (bs buf : List Nat) (off j : Nat),
    j < off ∨ off + bs.length ≤ j →
    (writeBytes buf off bs).getD j 0 = buf.getD j 0 := by
  intro bs
  induction bs with
  | nil => intro buf off j _; rfl
  | cons b bs ih =>
    intro buf off j h
    have hne : off ≠ j := by
      rcases h with h | h
      · omega
      · simp only [List.length_cons] at h; omega
    have h' : j < off + 1 ∨ off + 1 + bs.length ≤ j := by
      rcases h with h | h
      · exact Or.inl (by omega)
      · simp only [List.length_cons] at h; exact Or.inr (by omega)
    rw [writeBytes, ih _ _ _ h']
    simp [List.getD_eq_getElem?_getD, List.getElem?_set_ne hne]

theorem readLE_congr : ∀ (w : Nat) (buf1 buf2 : List Nat) (off : Nat),
    (∀ j, off ≤ j → j < off + w → buf1.getD j 0 = buf2.getD j 0) →
    readLE buf1 off w = readLE buf2 off w := by
  intro w
  induction w with
  | zero => intro buf1 buf2 off _; rfl
  | succ w ih =>
    intro buf1 buf2 off h
    rw [readLE, readLE, h off (le_refl off) (by omega),
      ih buf1 buf2 (off + 1) (fun j h1 h2 => h j (by omega) (by omega))]

theorem readLE_writeLE_frame (w w2 : Nat) (buf : List Nat) (off off2 v : Nat)
    (h : off + w ≤ off2 ∨ off2 + w2 ≤ off) :
    readLE (writeLE buf off2 w2 v) off w = readLE buf off w :=
  readLE_congr w _ buf off (fun j h1 h2 =>
    getD_writeLE_out w2 buf off2 v j (by omega))

theorem readLE_writeBytes_frame (w : Nat) (bs buf : List Nat) (off off2 : Nat)
    (h : off + w ≤ off2) :
    readLE (writeBytes buf off2 bs) off w = readLE buf off w :=
  readLE_congr w _ buf off (fun j h1 h2 =>
    getD_writeBytes_out bs buf off2 j (Or.inl (by omega)))

theorem readLE_writeLE : ∀ (w : Nat) (buf : List Nat) (off v : Nat),
    off + w ≤ buf.length →
    readLE (writeLE buf off w v) off w = v % 256 ^ w := by
  intro w
  induction w with
  | zero => intro buf off v _; simp [readLE, writeLE, Nat.mod_one]
  | succ w ih =>
    intro buf off v h
    have hofflt : off < buf.length := by omega
    have hlen : (buf.set off (v % 256)).length = buf.length := List.length_set ..
    rw [writeLE, readLE,
      getD_writeLE_out w _ (off + 1) (v / 256) off (Or.inl (by omega)),
      ih _ (off + 1) (v / 256) (by omega)]
    have hset : (buf.set off (v % 256)).getD off 0 = v % 256 := by
      simp [List.getD_eq_getElem?_getD, List.getElem?_set_eq_of_lt _ hofflt]
    rw [hset, pow_succ, mul_comm (256 ^ w) 256, Nat.mod_mul]

theorem exitScalarWrites_fields (buf : List Nat) (c : ExitProbeContext)
    (hlen : buf.length = 48) :
    (exitScalarWrites buf c).getD 0 0 = 2 ∧
    readLE (exitScalarWrites buf c) 4 4 = c.pid % 2 ^ 32 ∧
    readLE (exitScalarWrites buf c) 8 4 = c.tgid % 2 ^ 32 ∧
    readLE (exitScalarWrites buf c) 12 4 = c.uid % 2 ^ 32 ∧
    readLE (exitScalarWrites buf c) 16 4 = 0 ∧
    readLE (exitScalarWrites buf c) 24 8 = c.timestamp % 2 ^ 64 := by
  refine ⟨?_, ?_, ?_, ?_, ?_, ?_⟩
  · unfold exitScalarWrites
    rw [getD_writeLE_out, getD_writeLE_out, getD_writeLE_out, getD_writeLE_out,
      getD_writeLE_out, getD_writeLE_out, getD_writeLE_out, getD_writeLE_out]
    · have h0 : writeLE buf 0 1 2 = buf.set 0 2 := rfl
      rw [h0]
      simp [List.getD_eq_getElem?_getD,
        List.getElem?_set_eq_of_lt (2 : Nat) (show 0 < buf.length by omega)]
    all_goals omega
  · unfold exitScalarWrites
    rw [readLE_writeLE_frame, readLE_writeLE_frame, readLE_writeLE_frame,
      readLE_writeLE_frame, readLE_writeLE_frame, readLE_writeLE_frame,
      readLE_writeLE]
    · norm_num
    all_goals (try simp only [length_writeLE, hlen])
    all_goals omega
  · unfold exitScalarWrites
    rw [readLE_writeLE_frame, readLE_writeLE_frame, readLE_writeLE_frame,
      readLE_writeLE_frame, readLE_writeLE_frame, readLE_writeLE]
    · norm_num
    all_goals (try simp only [length_writeLE, hlen])
    all_goals omega
  · unfold exitScalarWrites
    rw [readLE_writeLE_frame, readLE_writeLE_frame, readLE_writeLE_frame,
      readLE_writeLE_frame, readLE_writeLE]
    · norm_num
    all_goals (try simp only [length_writeLE, hlen])
    all_goals omega
  · unfold exitScalarWrites
    rw [readLE_writeLE_frame, readLE_writeLE_frame, readLE_writeLE_frame,
      readLE_writeLE]
    · norm_num
    all_goals (try simp only [length_writeLE, hlen])
    all_goals omega
  · unfold exitScalarWrites
    rw [readLE_writeLE_frame, readLE_writeLE_frame, readLE_writeLE]
    · norm_num
    all_goals (try simp only [length_writeLE, hlen])
    all_goals omega

/-! ## Lemmas on the association-list map -/

theorem hmGet_nil (k : Nat) : hmGet [] k = none := rfl

theorem hmGet_filter_ne : ∀ (m : List (Nat × TrackedProcess)) (k g : Nat),
    k ≠ g → hmGet (m.filter (fun kv => kv.1 ≠ k)) g = hmGet m g := by
  intro m k g hkg
  induction m with
  | nil => rfl
  | cons a m ih =>
    by_cases hak : a.1 = k
    · have h1 : (decide (a.1 ≠ k)) = false := by simp [hak]
      have h2 : a.1 ≠ g := by rw [hak]; exact hkg
      rw [List.filter_cons, h1, if_neg Bool.false_ne_true]
      simp only [hmGet, if_neg h2]
      exact ih
    · have h1 : (decide (a.1 ≠ k)) = true := by simp [hak]
      rw [List.filter_cons, h1, if_pos rfl]
      by_cases hag : a.1 = g
      · simp only [hmGet, if_pos hag]
      · simp only [hmGet, if_neg hag]
        exact ih

theorem hmGet_insert_self (m : List (Nat × TrackedProcess)) (k : Nat)
    (v : TrackedProcess) : hmGet (hmInsert m k v) k = some v := by
  unfold hmInsert
  induction m with
  | nil => simp [hmGet]
  | cons a m ih =>
    by_cases hak : a.1 = k
    · have h1 : (decide (a.1 ≠ k)) = false := by simp [hak]
      rw [List.filter_cons, h1, if_neg Bool.false_ne_true]
      exact ih
    · have h1 : (decide (a.1 ≠ k)) = true := by simp [hak]
      rw [List.filter_cons, h1, if_pos rfl, List.cons_append]
      simp only [hmGet, if_neg hak]
      exact ih

theorem hmGet_insert_ne (m : List (Nat × TrackedProcess)) (k : Nat)
    (v : TrackedProcess) (g : Nat) (h : k ≠ g) :
    hmGet (hmInsert m k v) g = hmGet m g := by
  unfold hmInsert
  rw [← hmGet_filter_ne m k g h]
  generalize m.filter (fun kv => kv.1 ≠ k) = m'
  induction m' with
  | nil => simp [hmGet, h]
  | cons a m' ih =>
    rw [List.cons_append]
    by_cases hag : a.1 = g
    · simp only [hmGet, if_pos hag]
    · simp only [hmGet, if_neg hag]
      exact ih

theorem hmGet_erase_ne (m : List (Nat × TrackedProcess)) (k g : Nat)
    (h : k ≠ g) : hmGet (hmErase m k) g = hmGet m g :=
  hmGet_filter_ne m k g h

/-! ## Lemmas on tracker operations -/

theorem apply_max_history (op : TrackerOp) (t : ProcessTracker) :
    (op.apply t).max_history = t.max_history := by
  cases op with
  | execEv now e => rfl
  | exitEv now e =>
    simp only [TrackerOp.apply, ProcessTracker.on_exit]
    cases hmGet t.processes e.tgid <;> rfl
  | sweep now d => rfl

theorem apply_get_of_not_for (op : TrackerOp) (t : ProcessTracker) (g : Nat)
    (h : op.isEventNotFor g) :
    hmGet (op.apply t).processes g = hmGet t.processes g := by
  cases op with
  | execEv now e =>
    exact hmGet_insert_ne t.processes e.tgid (trackedOfExec now e) g h
  | exitEv now e =>
    simp only [TrackerOp.apply, ProcessTracker.on_exit]
    cases hget : hmGet t.processes e.tgid with
    | none => rfl
    | some tracked => exact hmGet_erase_ne t.processes e.tgid g h
  | sweep now d => exact absurd h (by simp [TrackerOp.isEventNotFor])

theorem runOps_max_history : ∀ (ops : List TrackerOp) (t : ProcessTracker),
    (runOps t ops).max_history = t.max_history := by
  intro ops
  induction ops with
  | nil => intro t; rfl
  | cons op ops ih =>
    intro t
    rw [runOps, List.foldl_cons, ← runOps, ih, apply_max_history]

theorem runOps_get_of_not_for : ∀ (ops : List TrackerOp)
    (t : ProcessTracker) (g : Nat), (∀ op ∈ ops, op.isEventNotFor g) →
    hmGet (runOps t ops).processes g = hmGet t.processes g := by
  intro ops
  induction ops with
  | nil => intro t g _; rfl
  | cons op ops ih =>
    intro t g h
    rw [runOps, List.foldl_cons, ← runOps,
      ih _ g (fun o ho => h o (List.mem_cons_of_mem op ho)),
      apply_get_of_not_for op t g (h op (List.mem_cons_self op ops))]

theorem histPush_getLast (cap : Nat) (h : List CompletedProcess)
    (c : CompletedProcess) (hcap : 0 < cap) :
    (histPush cap h c).getLast? = some c := by
  unfold histPush
  simp only []
  split
  · cases h with
    | nil =>
      rename_i hgt
      simp at hgt
      omega
    | cons d h' =>
      rw [List.cons_append, List.tail_cons]
      exact List.getLast?_concat h'
  · exact List.getLast?_concat h

theorem keys_nodup_filter (m : List (Nat × TrackedProcess))
    (p : Nat × TrackedProcess → Bool)
    (h : (m.map Prod.fst).Nodup) : ((m.filter p).map Prod.fst).Nodup :=
  (((List.filter_sublist m).map Prod.fst).nodup h : _)

theorem keys_nodup_insert (m : List (Nat × TrackedProcess)) (k : Nat)
    (v : TrackedProcess) (h : (m.map Prod.fst).Nodup) :
    ((hmInsert m k v).map Prod.fst).Nodup := by
  unfold hmInsert
  rw [List.map_append, List.nodup_append]
  refine ⟨keys_nodup_filter m _ h, List.nodup_singleton k, ?_⟩
  intro a ha hb
  simp only [List.map_cons, List.map_nil, List.mem_singleton] at hb
  subst hb
  obtain ⟨kv, hkv, hfst⟩ := List.mem_map.mp ha
  have := (List.mem_filter.mp hkv).2
  simp only [decide_eq_true_eq] at this
  exact this hfst

theorem apply_keysNodup (op : TrackerOp) (t : ProcessTracker)
    (h : keysNodup t) : keysNodup (op.apply t) := by
  cases op with
  | execEv now e => exact keys_nodup_insert t.processes e.tgid _ h
  | exitEv now e =>
    simp only [TrackerOp.apply, ProcessTracker.on_exit]
    cases hget : hmGet t.processes e.tgid with
    | none => exact h
    | some tracked => exact keys_nodup_filter t.processes _ h
  | sweep now d => exact keys_nodup_filter t.processes _ h

theorem runOps_keysNodup : ∀ (ops : List TrackerOp) (t : ProcessTracker),
    keysNodup t → keysNodup (runOps t ops) := by
  intro ops
  induction ops with
  | nil => intro t h; exact h
  | cons op ops ih =>
    intro t h
    rw [runOps, List.foldl_cons, ← runOps]
    exact ih _ (apply_keysNodup op t h)

theorem histPush_length_le (cap : Nat) (h : List CompletedProcess)
    (c : CompletedProcess) (hle : h.length ≤ cap) :
    (histPush cap h c).length ≤ cap := by
  unfold histPush
  simp only []
  split
  · simp only [List.length_tail, List.length_append, List.length_singleton]
    omega
  · rename_i hgt
    simp only [List.length_append, List.length_singleton] at hgt ⊢
    omega

theorem histPush_full (cap : Nat) (h : List CompletedProcess)
    (c : CompletedProcess) (hlt : h.length + 1 ≤ cap) :
    histPush cap h c = h ++ [c] := by
  unfold histPush
  simp only []
  rw [if_neg]
  simp only [List.length_append, List.length_singleton]
  omega

theorem histPush_evict (cap : Nat) (h : List CompletedProcess)
    (c : CompletedProcess) (hge : cap < h.length + 1) :
    histPush cap h c = (h ++ [c]).tail := by
  unfold histPush
  simp only []
  rw [if_pos]
  simp only [List.length_append, List.length_singleton]
  omega

theorem foldl_histPush_drop (K : Nat) :
    ∀ (cs h0 : List CompletedProcess), h0.length ≤ K →
    List.foldl (histPush K) h0 cs =
      (h0 ++ cs).drop (h0.length + cs.length - K) := by
  intro cs
  induction cs with
  | nil =>
    intro h0 hle
    simp [Nat.sub_eq_zero_of_le hle]
  | cons c cs ih =>
    intro h0 hle
    rw [List.foldl_cons, ih _ (histPush_length_le K h0 c hle)]
    by_cases hlt : h0.length + 1 ≤ K
    · rw [histPush_full K h0 c hlt]
      have hlen : (h0 ++ [c]).length = h0.length + 1 := by simp
      rw [hlen, List.append_assoc, List.singleton_append]
      congr 1
      simp only [List.length_cons]
      omega
    · have hK : h0.length = K := by omega
      rw [histPush_evict K h0 c (by omega)]
      cases h0 with
      | nil =>
        have hK0 : K = 0 := by simpa using hK.symm
        subst hK0
        simp only [List.nil_append, List.tail_cons, List.length_nil,
          Nat.zero_add, List.length_cons]
        rw [List.drop_eq_nil_of_le (by omega),
          List.drop_eq_nil_of_le (by simp)]
      | cons d h' =>
        have hlen1 : ((d :: h' ++ [c]).tail).length = K := by
          simp only [List.cons_append, List.tail_cons, List.length_append,
            List.length_singleton]
          simp only [List.length_cons] at hK
          omega
        rw [hlen1]
        rw [show (d :: h' ++ [c]).tail = h' ++ [c] by
          rw [List.cons_append, List.tail_cons]]
        rw [List.append_assoc, List.singleton_append]
        have h2 : (d :: h').length + (c :: cs).length - K = cs.length + 1 := by
          simp only [List.length_cons]
          simp only [List.length_cons] at hK
          omega
        rw [h2, List.cons_append, List.drop_succ_cons]
        congr 1
        omega

theorem runPair_history (t : ProcessTracker) (p : ExecExitPair)
    (h : p.exitEv.tgid = p.execEv.tgid) :
    (runPair t p).history =
      histPush t.max_history t.history (completionOfPair p) ∧
    (runPair t p).max_history = t.max_history := by
  unfold runPair
  have hget : hmGet (t.on_exec p.execNow p.execEv).processes p.exitEv.tgid
      = some (trackedOfExec p.execNow p.execEv) := by
    rw [h]
    exact hmGet_insert_self t.processes p.execEv.tgid _
  simp only [ProcessTracker.on_exit, hget]
  exact ⟨rfl, rfl⟩

theorem runPairs_history : ∀ (ps : List ExecExitPair) (t : ProcessTracker),
    (∀ p ∈ ps, p.exitEv.tgid = p.execEv.tgid) →
    (runPairs t ps).history =
      List.foldl (histPush t.max_history) t.history
        (ps.map completionOfPair) ∧
    (runPairs t ps).max_history = t.max_history := by
  intro ps
  induction ps with
  | nil => intro t _; exact ⟨rfl, rfl⟩
  | cons p ps ih =>
    intro t h
    obtain ⟨hh, hm⟩ := runPair_history t p (h p (List.mem_cons_self p ps))
    obtain ⟨hh', hm'⟩ :=
      ih (runPair t p) (fun q hq => h q (List.mem_cons_of_mem p hq))
    constructor
    · rw [runPairs, List.foldl_cons, ← runPairs, hh', hm, hh,
        List.map_cons, List.foldl_cons]
    · rw [runPairs, List.foldl_cons, ← runPairs, hm', hm]

theorem apply_history_le (op : TrackerOp) (t : ProcessTracker)
    (h : t.history.length ≤ t.max_history) :
    (op.apply t).history.length ≤ (op.apply t).max_history := by
  cases op with
  | execEv now e => exact h
  | exitEv now e =>
    simp only [TrackerOp.apply, ProcessTracker.on_exit]
    cases hget : hmGet t.processes e.tgid with
    | none => exact h
    | some tracked => exact histPush_length_le t.max_history t.history _ h
  | sweep now d => exact h

theorem runOps_history_le : ∀ (ops : List TrackerOp) (t : ProcessTracker),
    t.history.length ≤ t.max_history →
    (runOps t ops).history.length ≤ (runOps t ops).max_history := by
  intro ops
  induction ops with
  | nil => intro t h; exact h
  | cons op ops ih =>
    intro t h
    rw [runOps, List.foldl_cons, ← runOps]
    exact ih _ (apply_history_le op t h)

/-! ## Lemmas on little-endian encodings -/

theorem toLE_length : ∀ (w v : Nat), (toLE w v).length = w := by
  intro w
  induction w with
  | zero => intro v; rfl
  | succ w ih => intro v; simp [toLE, ih]

theorem readLE_cons_succ : ∀ (w : Nat) (b : Nat) (buf : List Nat) (off : Nat),
    readLE (b :: buf) (off + 1) w = readLE buf off w := by
  intro w
  induction w with
  | zero => intro b buf off; rfl
  | succ w ih =>
    intro b buf off
    rw [readLE, readLE, List.getD_cons_succ, ih]

theorem readLE_append_add : ∀ (l1 l2 : List Nat) (off w : Nat),
    readLE (l1 ++ l2) (l1.length + off) w = readLE l2 off w := by
  intro l1
  induction l1 with
  | nil => intro l2 off w; simp
  | cons b l1 ih =>
    intro l2 off w
    have h : (b :: l1).length + off = l1.length + off + 1 := by
      simp [List.length_cons]; omega
    rw [List.cons_append, h, readLE_cons_succ, ih]

theorem readLE_append_skip (l1 l2 : List Nat) (off off' w : Nat)
    (h : off = l1.length + off') :
    readLE (l1 ++ l2) off w = readLE l2 off' w := by
  subst h
  exact readLE_append_add l1 l2 off' w

theorem readLE_toLE_append : ∀ (w v : Nat) (rest : List Nat),
    readLE (toLE w v ++ rest) 0 w = v % 256 ^ w := by
  intro w
  induction w with
  | zero => intro v rest; simp [readLE, Nat.mod_one]
  | succ w ih =>
    intro v rest
    rw [toLE, List.cons_append, readLE, List.getD_cons_zero,
      show (0 : Nat) + 1 = 0 + 1 from rfl, readLE_cons_succ, ih,
      pow_succ, mul_comm (256 ^ w) 256, Nat.mod_mul]

theorem drop_append_skip (l1 l2 : List Nat) (n n' : Nat)
    (h : n = l1.length + n') :
    (l1 ++ l2).drop n = l2.drop n' := by
  subst h
  rw [List.drop_append]

/-- Reading back an `i32` stored as its two's-complement u32 gives the
original value. -/
theorem toSigned32_intToU32 (z : Int) (h1 : -(2 ^ 31) ≤ z) (h2 : z < 2 ^ 31) :
    toSigned32 (intToU32 z) = z := by
  simp only [toSigned32, intToU32]
  split <;> omega

/-! ## Theorems -/

/-- C1: For every command name and duration, `EffectiveConfig::should_notify`
on the config built by `EffectiveConfig::new` returns: false if the user's
disabled flag is set; else, if the name is in the always-notify set, true iff
`duration_seconds ≥ effective_threshold`; else, if the name is in the ignore
set (union of system and user ignore patterns), false; else true iff
`duration_seconds ≥ effective_threshold`, where the effective threshold is
the user's override if present and otherwise the system default. -/
theorem C1_should_notify_decision (daemon : DaemonConfig)
    (user : Option UserConfig) (comm : String) (duration_secs : Nat) :
    (EffectiveConfig.new daemon user).should_notify comm duration_secs =
      (let effective_threshold :=
        (user.bind (fun u => u.threshold_seconds)).getD daemon.threshold_seconds
      if (user.map (fun u => u.disabled)).getD false then
        false
      else if ((user.map (fun u => u.always_notify)).getD []).contains comm then
        decide (duration_secs ≥ effective_threshold)
      else if (daemon.ignore_patterns ++
          (user.map (fun u => u.ignore_patterns)).getD []).contains comm then
        false
      else
        decide (duration_secs ≥ effective_threshold)) := by
  rfl

/-- C2: the claim that the notification decision path resolves ignore and
always-notify membership with single-`*` glob matching is false on the code:
`EffectiveConfig::should_notify` tests raw `HashSet` membership only.  With
the system ignore pattern `"npm*"`, the glob matcher of
`DaemonConfig::should_ignore` does match `"npm"`, `"npm-run"` (and rejects
`"yarn"`, with `"*test"` matching `"unittest"`), but `should_notify` still
returns true for `"npm-run"` above the threshold because `"npm-run"` is not
literally a member of the ignore set. -/
theorem C2_decision_path_ignores_globs :
    DaemonConfig.should_ignore ⟨1000, 10, ["npm*"], false⟩ "npm-run" = true ∧
    globMatches "npm*" "npm" = true ∧
    globMatches "npm*" "npm-run" = true ∧
    globMatches "npm*" "yarn" = false ∧
    globMatches "*test" "unittest" = true ∧
    globMatches "a*b*c" "abc" = false ∧
    (EffectiveConfig.new ⟨1000, 10, ["npm*"], false⟩ none).ignore_set.contains
      "npm-run" = false ∧
    (EffectiveConfig.new ⟨1000, 10, ["npm*"], false⟩ none).should_notify
      "npm-run" 100 = true := by
  refine ⟨by decide, by decide, by decide, by decide, by decide, by decide,
    by decide, by decide⟩

/-- C3: the claim that the exit probe writes the exiting process's exit code
at byte offset 16 is false on the code: `try_sched_process_exit` stores the
constant `0` there (main.rs line 179), whatever the task's exit code is.
The other scalars (tag, pid, tgid, uid, timestamp) are written at their
fixed offsets from the current task's values as claimed. -/
theorem C3_exit_probe_fields (c : ExitProbeContext) (buf : List Nat)
    (hlen : buf.length = 48) (huid : MIN_UID ≤ c.uid) :
    ∃ rec, try_sched_process_exit c buf = some rec ∧
      rec.getD 0 0 = 2 ∧
      readLE rec 4 4 = c.pid % 2 ^ 32 ∧
      readLE rec 8 4 = c.tgid % 2 ^ 32 ∧
      readLE rec 12 4 = c.uid % 2 ^ 32 ∧
      readLE rec 24 8 = c.timestamp % 2 ^ 64 ∧
      toSigned32 (readLE rec 16 4) = 0 := by
  obtain ⟨htag, hpid, htgid, huid', hexit, hts⟩ := exitScalarWrites_fields buf c hlen
  have hnot : ¬ c.uid < MIN_UID := by omega
  refine ⟨exitRecordWrites buf c, by simp [try_sched_process_exit, hnot], ?_⟩
  cases hcm : c.comm with
  | none =>
    simp only [exitRecordWrites, hcm]
    exact ⟨htag, hpid, htgid, huid', hts, by rw [hexit]; rfl⟩
  | some comm =>
    simp only [exitRecordWrites, hcm]
    refine ⟨?_, ?_, ?_, ?_, ?_, ?_⟩
    · rw [getD_writeBytes_out comm _ 32 0 (Or.inl (by omega))]; exact htag
    · rw [readLE_writeBytes_frame 4 comm _ 4 32 (by omega)]; exact hpid
    · rw [readLE_writeBytes_frame 4 comm _ 8 32 (by omega)]; exact htgid
    · rw [readLE_writeBytes_frame 4 comm _ 12 32 (by omega)]; exact huid'
    · rw [readLE_writeBytes_frame 8 comm _ 24 32 (by omega)]; exact hts
    · rw [readLE_writeBytes_frame 4 comm _ 16 32 (by omega), hexit]; rfl

/-- C3 witness: a task with uid 1000 exiting with code 101 still gets `0`
stored in the exit-code field (and 0 ≠ 101). -/
theorem C3_exit_probe_fields_witness :
    (∃ rec,
      try_sched_process_exit
        ⟨1000, 7, 7, 123456, 101, some (List.replicate 16 0)⟩
        (List.replicate 48 0) = some rec ∧
      rec.getD 0 0 = 2 ∧
      readLE rec 4 4 = 7 % 2 ^ 32 ∧
      readLE rec 8 4 = 7 % 2 ^ 32 ∧
      readLE rec 12 4 = 1000 % 2 ^ 32 ∧
      readLE rec 24 8 = 123456 % 2 ^ 64 ∧
      toSigned32 (readLE rec 16 4) = 0) ∧
    (0 : Int) ≠ 101 :=
  ⟨C3_exit_probe_fields ⟨1000, 7, 7, 123456, 101, some (List.replicate 16 0)⟩
      (List.replicate 48 0) (by simp) (by decide),
   by decide⟩

/-- C4: an exec event followed — with no intervening event for that tgid,
though arbitrary events for other tgids may occur in between — by an exit
event with the same tgid makes `on_exit` return a completion whose uid,
tgid and command name are those of the exec event, whose duration (a `Nat`,
hence ≥ 0) is the kernel-timestamp difference when
`exit.timestamp_ns > exec.timestamp_ns` and otherwise the wall-clock time
elapsed since the exec was handled, and which is appended at the end of the
history. -/
theorem C4_pairing (t : ProcessTracker) (n1 n2 : Nat) (e : ProcessExecEvent)
    (x : ProcessExitEvent) (ops : List TrackerOp)
    (hops : ∀ op ∈ ops, op.isEventNotFor e.tgid)
    (htgid : x.tgid = e.tgid) (hcap : 0 < t.max_history) :
    ∃ c : CompletedProcess,
      ((runOps (t.on_exec n1 e) ops).on_exit n2 x).2 = some c ∧
      c.uid = e.uid ∧ c.tgid = e.tgid ∧ c.comm = e.comm ∧
      c.duration = (if x.timestamp_ns > e.timestamp_ns
        then x.timestamp_ns - e.timestamp_ns else n2 - n1) ∧
      ((runOps (t.on_exec n1 e) ops).on_exit n2 x).1.history.getLast?
        = some c := by
  have hget : hmGet (runOps (t.on_exec n1 e) ops).processes x.tgid
      = some (trackedOfExec n1 e) := by
    rw [htgid, runOps_get_of_not_for ops _ e.tgid hops]
    exact hmGet_insert_self t.processes e.tgid (trackedOfExec n1 e)
  have hcap' : 0 < (runOps (t.on_exec n1 e) ops).max_history := by
    rw [runOps_max_history]
    exact hcap
  refine ⟨⟨e.pid, e.tgid, e.uid, e.comm, e.filename, x.exit_code,
    if x.timestamp_ns > e.timestamp_ns then x.timestamp_ns - e.timestamp_ns
    else n2 - n1⟩, ?_, rfl, rfl, rfl, rfl, ?_⟩
  · simp only [ProcessTracker.on_exit, hget]
    rfl
  · simp only [ProcessTracker.on_exit, hget]
    rw [histPush_getLast _ _ _ hcap']
    rfl

/-- C4 witness: a make process (tgid 7) execed at wall-clock 10 and exited
at wall-clock 30 with kernel timestamps 100 and 200, with an unrelated exec
for tgid 8 in between, completes with the exec's identity and duration 100. -/
theorem C4_pairing_witness :
    ∃ c : CompletedProcess,
      ((runOps ((ProcessTracker.new 5).on_exec 10
          ⟨7, 7, 0, 1000, 100, "make", "/usr/bin/make"⟩)
          [.execEv 15 ⟨8, 8, 0, 1000, 150, "ls", "/bin/ls"⟩]).on_exit 30
          ⟨7, 7, 1000, 0, 200, "make"⟩).2 = some c ∧
      c.uid = 1000 ∧ c.tgid = 7 ∧ c.comm = "make" ∧
      c.duration = (if (200 : Nat) > 100 then 200 - 100 else 30 - 10) ∧
      ((runOps ((ProcessTracker.new 5).on_exec 10
          ⟨7, 7, 0, 1000, 100, "make", "/usr/bin/make"⟩)
          [.execEv 15 ⟨8, 8, 0, 1000, 150, "ls", "/bin/ls"⟩]).on_exit 30
          ⟨7, 7, 1000, 0, 200, "make"⟩).1.history.getLast? = some c :=
  C4_pairing (ProcessTracker.new 5) 10 30
    ⟨7, 7, 0, 1000, 100, "make", "/usr/bin/make"⟩
    ⟨7, 7, 1000, 0, 200, "make"⟩
    [.execEv 15 ⟨8, 8, 0, 1000, 150, "ls", "/bin/ls"⟩]
    (by
      intro op hop
      simp only [List.mem_singleton] at hop
      subst hop
      exact (by decide : (8 : Nat) ≠ 7))
    rfl (by decide)

/-- C5: in every state reachable from a fresh tracker by any sequence of
exec, exit and stale-sweep operations the active table's tgid keys are
pairwise distinct (at most one entry per tgid), and two consecutive execs
for the same tgid leave exactly one entry for that tgid, all of whose
fields (including start instant and kernel start timestamp) come from the
second exec. -/
theorem C5_at_most_one_per_tgid :
    (∀ (K : Nat) (ops : List TrackerOp),
      keysNodup (runOps (ProcessTracker.new K) ops)) ∧
    (∀ (t : ProcessTracker) (n1 n2 : Nat) (e1 e2 : ProcessExecEvent),
      e1.tgid = e2.tgid →
      ((t.on_exec n1 e1).on_exec n2 e2).processes.filter
        (fun kv => kv.1 = e2.tgid) = [(e2.tgid, trackedOfExec n2 e2)]) := by
  constructor
  · intro K ops
    exact runOps_keysNodup ops _ (by simp [keysNodup, ProcessTracker.new])
  · intro t n1 n2 e1 e2 h
    simp only [ProcessTracker.on_exec]
    rw [h]
    rw [show hmInsert (hmInsert t.processes e2.tgid (trackedOfExec n1 e1))
        e2.tgid (trackedOfExec n2 e2) =
      (hmInsert t.processes e2.tgid (trackedOfExec n1 e1)).filter
          (fun kv => kv.1 ≠ e2.tgid) ++ [(e2.tgid, trackedOfExec n2 e2)]
      from rfl, List.filter_append]
    have h1 : ((hmInsert t.processes e2.tgid (trackedOfExec n1 e1)).filter
        (fun kv => kv.1 ≠ e2.tgid)).filter (fun kv => kv.1 = e2.tgid)
        = [] := by
      rw [List.filter_eq_nil_iff]
      intro kv hkv
      have h2 := (List.mem_filter.mp hkv).2
      simp only [decide_eq_true_eq] at h2 ⊢
      exact h2
    rw [h1, List.nil_append]
    simp

/-- C5 witness: a fresh tracker stays key-unique across an exec, an exit
and a sweep, and two consecutive execs for tgid 5 leave exactly the second
entry. -/
theorem C5_at_most_one_per_tgid_witness :
    keysNodup (runOps (ProcessTracker.new 3)
      [.execEv 1 ⟨1, 5, 0, 1000, 100, "a", "/a"⟩,
       .exitEv 2 ⟨1, 5, 1000, 0, 150, "a"⟩,
       .sweep 3 10]) ∧
    (((ProcessTracker.new 3).on_exec 1 ⟨1, 5, 0, 1000, 100, "a", "/a"⟩).on_exec
        2 ⟨2, 5, 0, 1000, 200, "b", "/b"⟩).processes.filter
      (fun kv => kv.1 = 5) =
      [(5, trackedOfExec 2 ⟨2, 5, 0, 1000, 200, "b", "/b"⟩)] :=
  ⟨C5_at_most_one_per_tgid.1 3
      [.execEv 1 ⟨1, 5, 0, 1000, 100, "a", "/a"⟩,
       .exitEv 2 ⟨1, 5, 1000, 0, 150, "a"⟩,
       .sweep 3 10],
   C5_at_most_one_per_tgid.2 (ProcessTracker.new 3) 1 2
      ⟨1, 5, 0, 1000, 100, "a", "/a"⟩ ⟨2, 5, 0, 1000, 200, "b", "/b"⟩ rfl⟩

/-- C6: after N completed exec/exit pairs on a tracker with cap K the
history is exactly the most recent completions in insertion order — the
full completion list with the oldest `N - K` dropped — so its length is
`min N K`; moreover the history length never exceeds K after any sequence
of operations. -/
theorem C6_history_bound :
    (∀ (K : Nat) (ps : List ExecExitPair),
      (∀ p ∈ ps, p.exitEv.tgid = p.execEv.tgid) →
      (runPairs (ProcessTracker.new K) ps).history =
        (ps.map completionOfPair).drop (ps.length - K) ∧
      (runPairs (ProcessTracker.new K) ps).history.length =
        min ps.length K) ∧
    (∀ (K : Nat) (ops : List TrackerOp),
      (runOps (ProcessTracker.new K) ops).history.length ≤ K) := by
  constructor
  · intro K ps hps
    obtain ⟨hh, _⟩ := runPairs_history ps (ProcessTracker.new K) hps
    have hdrop : (runPairs (ProcessTracker.new K) ps).history =
        (ps.map completionOfPair).drop (ps.length - K) := by
      rw [hh, show (ProcessTracker.new K).max_history = K from rfl,
        show (ProcessTracker.new K).history = [] from rfl,
        foldl_histPush_drop K (ps.map completionOfPair) [] (by simp)]
      simp [List.length_map]
    refine ⟨hdrop, ?_⟩
    rw [hdrop, List.length_drop, List.length_map]
    omega
  · intro K ops
    have h := runOps_history_le ops (ProcessTracker.new K)
      (by simp [ProcessTracker.new])
    rwa [runOps_max_history] at h

/-- C6 witness: with cap 2 and three completed pairs the history holds the
last two completions, and a mixed operation sequence keeps the history
within the cap. -/
theorem C6_history_bound_witness :
    ((runPairs (ProcessTracker.new 2)
      [⟨1, ⟨1, 5, 0, 1000, 100, "a", "/a"⟩, 2, ⟨1, 5, 1000, 0, 150, "a"⟩⟩,
       ⟨3, ⟨2, 6, 0, 1000, 200, "b", "/b"⟩, 4, ⟨2, 6, 1000, 1, 250, "b"⟩⟩,
       ⟨5, ⟨3, 7, 0, 1000, 300, "c", "/c"⟩, 6, ⟨3, 7, 1000, 0, 350, "c"⟩⟩]).history =
      ([⟨1, ⟨1, 5, 0, 1000, 100, "a", "/a"⟩, 2, ⟨1, 5, 1000, 0, 150, "a"⟩⟩,
        ⟨3, ⟨2, 6, 0, 1000, 200, "b", "/b"⟩, 4, ⟨2, 6, 1000, 1, 250, "b"⟩⟩,
        ⟨(5 : Nat), ⟨3, 7, 0, 1000, 300, "c", "/c"⟩, 6,
          ⟨3, 7, 1000, 0, 350, "c"⟩⟩].map completionOfPair).drop (3 - 2) ∧
     (runPairs (ProcessTracker.new 2)
      [⟨1, ⟨1, 5, 0, 1000, 100, "a", "/a"⟩, 2, ⟨1, 5, 1000, 0, 150, "a"⟩⟩,
       ⟨3, ⟨2, 6, 0, 1000, 200, "b", "/b"⟩, 4, ⟨2, 6, 1000, 1, 250, "b"⟩⟩,
       ⟨5, ⟨3, 7, 0, 1000, 300, "c", "/c"⟩, 6,
         ⟨3, 7, 1000, 0, 350, "c"⟩⟩]).history.length = min 3 2) ∧
    (runOps (ProcessTracker.new 2)
      [.execEv 1 ⟨1, 5, 0, 1000, 100, "a", "/a"⟩,
       .exitEv 2 ⟨1, 5, 1000, 0, 150, "a"⟩,
       .sweep 3 10]).history.length ≤ 2 :=
  ⟨C6_history_bound.1 2
    [⟨1, ⟨1, 5, 0, 1000, 100, "a", "/a"⟩, 2, ⟨1, 5, 1000, 0, 150, "a"⟩⟩,
     ⟨3, ⟨2, 6, 0, 1000, 200, "b", "/b"⟩, 4, ⟨2, 6, 1000, 1, 250, "b"⟩⟩,
     ⟨5, ⟨3, 7, 0, 1000, 300, "c", "/c"⟩, 6, ⟨3, 7, 1000, 0, 350, "c"⟩⟩]
    (by decide),
   C6_history_bound.2 2
    [.execEv 1 ⟨1, 5, 0, 1000, 100, "a", "/a"⟩,
     .exitEv 2 ⟨1, 5, 1000, 0, 150, "a"⟩,
     .sweep 3 10]⟩

/-- C7: `cleanup_stale(d)` keeps exactly the active entries whose wall-clock
age (saturating `now - start_time`) is at most `d`, removing those whose age
exceeds `d`, and leaves history (and the cap) untouched. -/
theorem C7_cleanup_stale_exact (t : ProcessTracker) (now max_age : Nat) :
    (t.cleanup_stale now max_age).history = t.history ∧
    (t.cleanup_stale now max_age).max_history = t.max_history ∧
    ∀ kv : Nat × TrackedProcess,
      kv ∈ (t.cleanup_stale now max_age).processes ↔
        kv ∈ t.processes ∧ now - kv.2.start_time ≤ max_age := by
  refine ⟨rfl, rfl, fun kv => ?_⟩
  simp [ProcessTracker.cleanup_stale, List.mem_filter, Nat.not_lt]

/-- C8: an exit event whose tgid is not in the active table produces no
completion and leaves the tracker (active table and history) unchanged. -/
theorem C8_orphan_exit_dropped (t : ProcessTracker) (now : Nat)
    (e : ProcessExitEvent) (h : hmGet t.processes e.tgid = none) :
    t.on_exit now e = (t, none) := by
  unfold ProcessTracker.on_exit
  rw [h]

/-- C8 witness: a fresh tracker drops an orphan exit unchanged. -/
theorem C8_orphan_exit_dropped_witness :
    (ProcessTracker.new 5).on_exit 10 ⟨7, 42, 1000, 1, 900, "ls"⟩ =
      (ProcessTracker.new 5, none) :=
  C8_orphan_exit_dropped (ProcessTracker.new 5) 10 ⟨7, 42, 1000, 1, 900, "ls"⟩ rfl

/-- C9: a 304-byte ExecRecord and a 48-byte ExitRecord constructed
byte-by-byte at the documented offsets decode, through the event processor's
record decoding, to the struct values with exactly those scalars and
strings. -/
theorem C9_record_layout_roundtrip
    (pid tgid ppid uid ts : Nat) (ec : Int) (comm filename : List Nat)
    (hpid : pid < 2 ^ 32) (htgid : tgid < 2 ^ 32) (hppid : ppid < 2 ^ 32)
    (huid : uid < 2 ^ 32) (hts : ts < 2 ^ 64)
    (hec1 : -(2 ^ 31) ≤ ec) (hec2 : ec < 2 ^ 31)
    (hcomm : comm.length = 16) (hfile : filename.length = 256) :
    decodeEvent (encodeExecRecord pid tgid ppid uid ts comm filename) =
      some (Sum.inl ⟨1, pid, tgid, ppid, uid, ts, comm, filename⟩) ∧
    decodeEvent (encodeExitRecord pid tgid uid ec ts comm) =
      some (Sum.inr ⟨2, pid, tgid, uid, ec, ts, comm⟩) := by
  have h2564 : (256 : Nat) ^ 4 = 2 ^ 32 := by norm_num
  have h2568 : (256 : Nat) ^ 8 = 2 ^ 64 := by norm_num
  constructor
  · have hE : encodeExecRecord pid tgid ppid uid ts comm filename =
        [1, 0, 0, 0] ++ (toLE 4 pid ++ (toLE 4 tgid ++ (toLE 4 ppid ++
          (toLE 4 uid ++ ([0, 0, 0, 0] ++ (toLE 8 ts ++
            (comm ++ filename))))))) := by
      simp [encodeExecRecord, List.append_assoc]
    have hlen : (encodeExecRecord pid tgid ppid uid ts comm filename).length
        = 304 := by
      simp [encodeExecRecord, toLE_length, hcomm, hfile]
    have hhd : (encodeExecRecord pid tgid ppid uid ts comm filename).getD 0 0
        = 1 := rfl
    simp only [decodeEvent, hlen, hhd, execRecordSize]
    norm_num
    simp only [readExecRecord, ProcessExecRecord.mk.injEq, hlen, hhd]
    refine ⟨trivial, ?_, ?_, ?_, ?_, ?_, ?_, ?_⟩
    · rw [hE, readLE_append_skip [1, 0, 0, 0] _ 4 0 4 (by decide),
        readLE_toLE_append, h2564]
      exact Nat.mod_eq_of_lt hpid
    · rw [hE, readLE_append_skip [1, 0, 0, 0] _ 8 4 4 (by decide),
        readLE_append_skip (toLE 4 pid) _ 4 0 4 (by simp [toLE_length]),
        readLE_toLE_append, h2564]
      exact Nat.mod_eq_of_lt htgid
    · rw [hE, readLE_append_skip [1, 0, 0, 0] _ 12 8 4 (by decide),
        readLE_append_skip (toLE 4 pid) _ 8 4 4 (by simp [toLE_length]),
        readLE_append_skip (toLE 4 tgid) _ 4 0 4 (by simp [toLE_length]),
        readLE_toLE_append, h2564]
      exact Nat.mod_eq_of_lt hppid
    · rw [hE, readLE_append_skip [1, 0, 0, 0] _ 16 12 4 (by decide),
        readLE_append_skip (toLE 4 pid) _ 12 8 4 (by simp [toLE_length]),
        readLE_append_skip (toLE 4 tgid) _ 8 4 4 (by simp [toLE_length]),
        readLE_append_skip (toLE 4 ppid) _ 4 0 4 (by simp [toLE_length]),
        readLE_toLE_append, h2564]
      exact Nat.mod_eq_of_lt huid
    · rw [hE, readLE_append_skip [1, 0, 0, 0] _ 24 20 8 (by decide),
        readLE_append_skip (toLE 4 pid) _ 20 16 8 (by simp [toLE_length]),
        readLE_append_skip (toLE 4 tgid) _ 16 12 8 (by simp [toLE_length]),
        readLE_append_skip (toLE 4 ppid) _ 12 8 8 (by simp [toLE_length]),
        readLE_append_skip (toLE 4 uid) _ 8 4 8 (by simp [toLE_length]),
        readLE_append_skip [0, 0, 0, 0] _ 4 0 8 (by decide),
        readLE_toLE_append, h2568]
      exact Nat.mod_eq_of_lt hts
    · rw [hE, drop_append_skip [1, 0, 0, 0] _ 32 28 (by decide),
        drop_append_skip (toLE 4 pid) _ 28 24 (by simp [toLE_length]),
        drop_append_skip (toLE 4 tgid) _ 24 20 (by simp [toLE_length]),
        drop_append_skip (toLE 4 ppid) _ 20 16 (by simp [toLE_length]),
        drop_append_skip (toLE 4 uid) _ 16 12 (by simp [toLE_length]),
        drop_append_skip [0, 0, 0, 0] _ 12 8 (by decide),
        drop_append_skip (toLE 8 ts) _ 8 0 (by simp [toLE_length]),
        List.drop_zero, List.take_left' hcomm]
    · rw [hE, drop_append_skip [1, 0, 0, 0] _ 48 44 (by decide),
        drop_append_skip (toLE 4 pid) _ 44 40 (by simp [toLE_length]),
        drop_append_skip (toLE 4 tgid) _ 40 36 (by simp [toLE_length]),
        drop_append_skip (toLE 4 ppid) _ 36 32 (by simp [toLE_length]),
        drop_append_skip (toLE 4 uid) _ 32 28 (by simp [toLE_length]),
        drop_append_skip [0, 0, 0, 0] _ 28 24 (by decide),
        drop_append_skip (toLE 8 ts) _ 24 16 (by simp [toLE_length]),
        drop_append_skip comm _ 16 0 (by omega),
        List.drop_zero, ← hfile, List.take_length]
  · have hX : encodeExitRecord pid tgid uid ec ts comm =
        [2, 0, 0, 0] ++ (toLE 4 pid ++ (toLE 4 tgid ++ (toLE 4 uid ++
          (toLE 4 (intToU32 ec) ++ ([0, 0, 0, 0] ++ (toLE 8 ts ++
            comm)))))) := by
      simp [encodeExitRecord, List.append_assoc]
    have hlen : (encodeExitRecord pid tgid uid ec ts comm).length = 48 := by
      simp [encodeExitRecord, toLE_length, hcomm]
    have hhd : (encodeExitRecord pid tgid uid ec ts comm).getD 0 0 = 2 := rfl
    simp only [decodeEvent, hlen, hhd, exitRecordSize]
    norm_num
    simp only [readExitRecord, ProcessExitRecord.mk.injEq, hlen, hhd]
    refine ⟨trivial, ?_, ?_, ?_, ?_, ?_, ?_⟩
    · rw [hX, readLE_append_skip [2, 0, 0, 0] _ 4 0 4 (by decide),
        readLE_toLE_append, h2564]
      exact Nat.mod_eq_of_lt hpid
    · rw [hX, readLE_append_skip [2, 0, 0, 0] _ 8 4 4 (by decide),
        readLE_append_skip (toLE 4 pid) _ 4 0 4 (by simp [toLE_length]),
        readLE_toLE_append, h2564]
      exact Nat.mod_eq_of_lt htgid
    · rw [hX, readLE_append_skip [2, 0, 0, 0] _ 12 8 4 (by decide),
        readLE_append_skip (toLE 4 pid) _ 8 4 4 (by simp [toLE_length]),
        readLE_append_skip (toLE 4 tgid) _ 4 0 4 (by simp [toLE_length]),
        readLE_toLE_append, h2564]
      exact Nat.mod_eq_of_lt huid
    · rw [hX, readLE_append_skip [2, 0, 0, 0] _ 16 12 4 (by decide),
        readLE_append_skip (toLE 4 pid) _ 12 8 4 (by simp [toLE_length]),
        readLE_append_skip (toLE 4 tgid) _ 8 4 4 (by simp [toLE_length]),
        readLE_append_skip (toLE 4 uid) _ 4 0 4 (by simp [toLE_length]),
        readLE_toLE_append, h2564,
        Nat.mod_eq_of_lt (show intToU32 ec < 2 ^ 32 by unfold intToU32; omega)]
      exact toSigned32_intToU32 ec hec1 hec2
    · rw [hX, readLE_append_skip [2, 0, 0, 0] _ 24 20 8 (by decide),
        readLE_append_skip (toLE 4 pid) _ 20 16 8 (by simp [toLE_length]),
        readLE_append_skip (toLE 4 tgid) _ 16 12 8 (by simp [toLE_length]),
        readLE_append_skip (toLE 4 uid) _ 12 8 8 (by simp [toLE_length]),
        readLE_append_skip (toLE 4 (intToU32 ec)) _ 8 4 8
          (by simp [toLE_length]),
        readLE_append_skip [0, 0, 0, 0] _ 4 0 8 (by decide),
        readLE_toLE_append, h2568]
      exact Nat.mod_eq_of_lt hts
    · rw [hX, drop_append_skip [2, 0, 0, 0] _ 32 28 (by decide),
        drop_append_skip (toLE 4 pid) _ 28 24 (by simp [toLE_length]),
        drop_append_skip (toLE 4 tgid) _ 24 20 (by simp [toLE_length]),
        drop_append_skip (toLE 4 uid) _ 20 16 (by simp [toLE_length]),
        drop_append_skip (toLE 4 (intToU32 ec)) _ 16 12
          (by simp [toLE_length]),
        drop_append_skip [0, 0, 0, 0] _ 12 8 (by decide),
        drop_append_skip (toLE 8 ts) _ 8 0 (by simp [toLE_length]),
        List.drop_zero, ← hcomm, List.take_length]

/-- C9 witness: a concrete exec record (pid 1, tgid 2, ppid 3, uid 1000,
timestamp 999, comm "make") and exit record (exit code 101) decode to the
expected structs. -/
theorem C9_record_layout_roundtrip_witness :
    (([109, 97, 107, 101] ++ List.replicate 12 0 : List Nat).length = 16) ∧
    decodeEvent (encodeExecRecord 1 2 3 1000 999
        ([109, 97, 107, 101] ++ List.replicate 12 0)
        (List.replicate 256 0)) =
      some (Sum.inl ⟨1, 1, 2, 3, 1000, 999,
        [109, 97, 107, 101] ++ List.replicate 12 0, List.replicate 256 0⟩) ∧
    decodeEvent (encodeExitRecord 1 2 1000 101 999
        ([109, 97, 107, 101] ++ List.replicate 12 0)) =
      some (Sum.inr ⟨2, 1, 2, 1000, 101, 999,
        [109, 97, 107, 101] ++ List.replicate 12 0⟩) :=
  ⟨by decide,
   C9_record_layout_roundtrip 1 2 3 1000 999 101
     ([109, 97, 107, 101] ++ List.replicate 12 0) (List.replicate 256 0)
     (by norm_num) (by norm_num) (by norm_num) (by norm_num) (by norm_num)
     (by norm_num) (by norm_num) (by decide) (List.length_replicate 256 0)⟩

/-- C10: the notification summary is `"Command completed: "` followed by the
command name, and the body is the status (`"succeeded"` iff the exit code is
0, else `"failed"`), the duration formatted as `Xs` / `Xm Ys` / `Xh Ym Zs`
by total-second ranges, and the exit code; instantiated on the spec's
examples (make, 12 s, exit 0; cargo, 30 s, exit 101) and on the two longer
duration ranges. -/
theorem C10_notification_format :
    (∀ p : CompletedProcess,
      notifySummary p = "Command completed: " ++ p.comm ∧
      format_body p =
        (if p.exit_code = 0 then "succeeded" else "failed") ++
          "\nDuration: " ++ format_duration p.duration ++
          "\nExit code: " ++ toString p.exit_code ∧
      (let secs := p.duration / 1000000000
       format_duration p.duration =
         if secs < 60 then
           toString secs ++ "s"
         else if secs < 3600 then
           toString (secs / 60) ++ "m " ++ toString (secs % 60) ++ "s"
         else
           toString (secs / 3600) ++ "h " ++ toString (secs % 3600 / 60) ++
             "m " ++ toString (secs % 60) ++ "s")) ∧
    notifySummary ⟨101, 101, 1000, "make", "", 0, 12000000000⟩ =
      "Command completed: make" ∧
    format_body ⟨101, 101, 1000, "make", "", 0, 12000000000⟩ =
      "succeeded\nDuration: 12s\nExit code: 0" ∧
    format_body ⟨102, 102, 1000, "cargo", "", 101, 30000000000⟩ =
      "failed\nDuration: 30s\nExit code: 101" ∧
    format_duration 90000000000 = "1m 30s" ∧
    format_duration 3700000000000 = "1h 1m 40s" := by
  refine ⟨fun p => ⟨rfl, rfl, rfl⟩, rfl, rfl, rfl, rfl, rfl⟩

end NotifyDone
